import Mathlib

/-!
Verification of the FAIRMeta metadata normalization and validation engine
(src/metadata_model.py) against its natural-language specification.

The development contains two shallow embeddings of the record-tree code:

* Model B (namespace `MetaB`): the record tree as a pure value tree with
  run-time type tags, used for the Shape/Vocabulary Normalizer passes
  (`_ensure_lists`, `_string_to_enum`, `_to_enum`,
  `_language_transformation`, `_legal_basis_transformation`) and for the
  Validator (`_drop_none`, `validate`).  Python class-membership tests
  (isinstance against AccessRights, DatasetTheme, DatasetStatus,
  AnyHttpUrl, BaseModel, list) become matches on value constructors.

* Model A (namespace `MetaA`): the record tree together with an explicit
  store of list objects, used for the Field Filler (`_fill_fields`) and
  the Mapping Resolver (`_populate_FDP`), where object identity and
  aliasing of configuration-supplied list objects is the point of the
  claims.  A Python list value is a reference (`AVal.aref`) into the
  store; list concatenation allocates a fresh cell, `list.extend` would
  have mutated a cell in place.

The pydantic schema classes (module schema_definitions_hri, and the
sempyro HRI classes) and the vocabulary lookup tables (module mappings)
are imported by src/metadata_model.py but are not part of the sources;
field shape/mandatoriness metadata and strict schema validation are
therefore modelled from the spec where needed, and lookup tables are
abstract association lists.
-/

/-- Errors raised by the engine.  `attributeError` is Python
AttributeError (StructureKind/TypeKind in the spec taxonomy when raised
by the Filler), `typeError` is Python TypeError (ShapeKind),
`valueError` is Python ValueError (ValueKind), `validationError` is a
pydantic ValidationError (ValidationKind). -/
inductive Err where
  | attributeError (msg : String)
  | typeError (msg : String)
  | valueError (msg : String)
  | validationError (msg : String)
deriving DecidableEq, Repr

namespace MetaB

/-- Declared field types of the target schema, for the spec-modelled
strict validation.  The schema classes live in the missing
schema_definitions_hri / sempyro modules, so only the small universe the
claims need is modelled. -/
inductive FTy where
  | tyStr
  | tyInt
  | tyUrl
  | tyAny
deriving DecidableEq, Repr

/-- Run-time class of a record node, standing for the pydantic model
class of the Python object (Catalog, Dataset, Distribution, Agent,
HRIAgent, Kind, HRIVCard, or the MetadataRecord wrapper). -/
inductive BKind where
  | catalog
  | dataset
  | distribution
  | agent
  | hriAgent
  | kindContact
  | vcard
  | record
deriving DecidableEq, Repr

mutual
/-- A Python value held by a record field: None, str, int, an
AnyHttpUrl instance, an AccessRights / DatasetTheme / DatasetStatus
enum member (each carrying its underlying string), a list, or a nested
pydantic model node. -/
inductive BVal where
  | vnone
  | vstr (s : String)
  | vint (n : Int)
  | vurl (s : String)
  | vaccess (s : String)
  | vtheme (s : String)
  | vstatus (s : String)
  | vlist (vs : List BVal)
  | vnode (n : BNode)

/-- A record node: its run-time class and its fields in declaration
order (the order of `model_fields`). -/
inductive BNode where
  | mk (kind : BKind) (fields : List BField)

/-- One field of a record node: the name, the schema metadata attached
to it by `model_fields` (`required` is `field.is_required()`, `isList`
is the `'List' in str(field.annotation)` test, `ty` the declared type),
and its current value.  `none` means the attribute is unset, so that
`getattr` raises AttributeError; `some BVal.vnone` means the attribute
holds Python None. -/
inductive BField where
  | mk (name : String) (required : Bool) (isList : Bool) (ty : FTy) (value : Option BVal)
end

def BField.name : BField → String
  | .mk n _ _ _ _ => n

def BField.required : BField → Bool
  | .mk _ r _ _ _ => r

def BField.isList : BField → Bool
  | .mk _ _ l _ _ => l

def BField.ty : BField → FTy
  | .mk _ _ _ t _ => t

def BField.value : BField → Option BVal
  | .mk _ _ _ _ v => v

def BNode.kind : BNode → BKind
  | .mk k _ => k

def BNode.fields : BNode → List BField
  | .mk _ fs => fs

/-- Python truthiness of a value: None, empty string, 0, and the empty
list are falsy; model instances, enum members and urls are truthy. -/
def truthyB : BVal → Bool
  | .vnone => false
  | .vstr s => !(s == "")
  | .vint n => !(n == 0)
  | .vurl _ => true
  | .vaccess _ => true
  | .vtheme _ => true
  | .vstatus _ => true
  | .vlist vs => !vs.isEmpty
  | .vnode _ => true

/-- The test `isinstance(value, list)`. -/
def isListB : BVal → Bool
  | .vlist _ => true
  | _ => false

/-- The test `value is None`. -/
def isNoneB : BVal → Bool
  | .vnone => true
  | _ => false

/-- The test `isinstance(value, AnyHttpUrl)`. -/
def isUrlB : BVal → Bool
  | .vurl _ => true
  | _ => false

/-- The test `isinstance(value, AccessRights)`. -/
def isAccessB : BVal → Bool
  | .vaccess _ => true
  | _ => false

/-- The test `isinstance(value, DatasetTheme)` on a value. -/
def isThemeB : BVal → Bool
  | .vtheme _ => true
  | _ => false

/-- The test `isinstance(value, DatasetStatus)`. -/
def isStatusB : BVal → Bool
  | .vstatus _ => true
  | _ => false

/-- The test `isinstance(value, BaseModel)`. -/
def isNodeB : BVal → Bool
  | .vnode _ => true
  | _ => false

/-- The source guard `isinstance(FDP_obj, DatasetTheme)` at
metadata_model.py line 138 tests the record node itself, not the field
value; a pydantic model node is never a DatasetTheme enum member, so
the guard is constantly false whatever the node class is. -/
def nodeIsDatasetTheme (_ : BKind) : Bool := false

/-- The source guards `isinstance(FDP_obj, AnyHttpUrl)` at
metadata_model.py lines 146 and 165 test the record node itself, not
the field value; a pydantic model node is never an AnyHttpUrl, so the
guard is constantly false whatever the node class is. -/
def nodeIsAnyHttpUrl (_ : BKind) : Bool := false

/-- Python `str.upper()` restricted to ASCII, character by character
(the raw vocabulary labels and language codes are ASCII). -/
def pyUpper (s : String) : String := String.mk (s.data.map Char.toUpper)

/-- Python `str.lower()` restricted to ASCII, character by character. -/
def pyLowerStr (s : String) : String := String.mk (s.data.map Char.toLower)

/-- The single-quote character, written by code point to keep string
literals plain. -/
def sq : Char := Char.ofNat 39

/-- The double-quote character, written by code point. -/
def dq : Char := Char.ofNat 34

/-- Python `repr` of a string: the string wrapped in single quotes, or
in double quotes when it contains a single quote (escaping of further
special characters is not modelled; the claims only evaluate it on
plain identifiers). -/
def pyReprStr (s : String) : String :=
  if s.contains sq then String.singleton dq ++ s ++ String.singleton dq
  else String.singleton sq ++ s ++ String.singleton sq

mutual
/-- Python `repr` of a value, as used for list elements inside
`str(list)`.  Enum members and urls are rendered by their underlying
string (an approximation; no claim evaluates them under repr), a model
node is not exercised by any claim. -/
def pyRepr : BVal → String
  | .vnone => "None"
  | .vstr s => pyReprStr s
  | .vint n => toString n
  | .vurl s => pyReprStr s
  | .vaccess s => pyReprStr s
  | .vtheme s => pyReprStr s
  | .vstatus s => pyReprStr s
  | .vlist vs => "[" ++ String.intercalate ", " (pyReprList vs) ++ "]"
  | .vnode _ => "<record>"

def pyReprList : List BVal → List String
  | [] => []
  | v :: rest => pyRepr v :: pyReprList rest
end

/-- Python `str` of a value, as interpolated by an f-string: a str is
itself, a list is bracketed comma-separated reprs of its elements. -/
def pyStr : BVal → String
  | .vstr s => s
  | .vlist vs => "[" ++ String.intercalate ", " (pyReprList vs) ++ "]"
  | v => pyRepr v

/-- Python `value.lower()`: defined for str values (and for the
str-subclass enum members); `none` stands for the AttributeError a
non-string raises, which the bare `except` in `_to_enum` turns into the
same ValueError as a table miss. -/
def pyLower : BVal → Option String
  | .vstr s => some (pyLowerStr s)
  | .vaccess s => some (pyLowerStr s)
  | .vtheme s => some (pyLowerStr s)
  | .vstatus s => some (pyLowerStr s)
  | _ => none

/-- Embeds `MetadataRecord._language_transformation` (metadata_model.py
lines 183-188): a value of at least 3 characters becomes the fixed
authority URI with its first 3 characters uppercased (a plain `str`,
built by an f-string); a shorter value raises ValueError.  `len` and
slicing also work on Python lists, where `.upper()` then raises
AttributeError; values without `len` raise TypeError. -/
def languageStrTransformation (s : String) : Except Err BVal :=
  if 3 ≤ s.length then
    .ok (.vstr ("http://publications.europa.eu/resource/authority/language/"
          ++ pyUpper (s.take 3)))
  else .error (.valueError "Provide at least 3 characters for language")

def languageTransformation : BVal → Except Err BVal
  | .vstr s => languageStrTransformation s
  | .vaccess s => languageStrTransformation s
  | .vtheme s => languageStrTransformation s
  | .vstatus s => languageStrTransformation s
  | .vlist vs =>
      if 3 ≤ vs.length then .error (.attributeError "list object has no attribute upper")
      else .error (.valueError "Provide at least 3 characters for language")
  | _ => .error (.typeError "object has no len")

/-- Embeds `MetadataRecord._legal_basis_transformation`
(metadata_model.py lines 190-192): the fixed namespace URI templated
with the f-string rendering of the value, with no length check and no
casing change. -/
def legalBasisTransformation (v : BVal) : BVal :=
  .vstr ("https://w3id.org/dpv#" ++ pyStr v)

/-- The `kind` argument of `MetadataRecord._to_enum`: either one of the
sentinel field names "language" / "legal_basis", or a lookup table from
the mappings module (a fixed mapping from lowercase label to canonical
value, held abstractly as an association list). -/
inductive TableKind where
  | language
  | legalBasis
  | table (t : List (String × BVal))

/-- Embeds `MetadataRecord._to_enum` (metadata_model.py lines 170-181):
dispatch on the kind; for a table, look up the lowercased value and on
any failure (missing key, or a value without `.lower()`) raise the
ValueError listing all supported keys of the table. -/
def toEnum (value : BVal) : TableKind → Except Err BVal
  | .language => languageTransformation value
  | .legalBasis => .ok (legalBasisTransformation value)
  | .table t =>
      match pyLower value with
      | some low =>
          match List.lookup low t with
          | some c => .ok c
          | none => .error (.valueError (pyStr value
              ++ " incorrect or not supported. Supported values: "
              ++ String.intercalate ", " (t.map Prod.fst)))
      | none => .error (.valueError (pyStr value
          ++ " incorrect or not supported. Supported values: "
          ++ String.intercalate ", " (t.map Prod.fst)))

/-- Modelled from the spec: the vocabulary lookup tables imported from
the repository mappings module, which is not among the sources.  Each
is a fixed mapping from lowercase label to canonical enumerated value,
kept abstract here. -/
structure Mappings where
  access_rights : List (String × BVal)
  themes : List (String × BVal)
  licenses : List (String × BVal)
  statuses : List (String × BVal)
  frequencies : List (String × BVal)

mutual
/-- Embeds `MetadataRecord._ensure_lists` (metadata_model.py lines
96-112) on one node: every field is processed in declaration order by
`ensureField`; the pass returns the updated node together with the
warnings emitted by `warnings.warn`. -/
def ensureLists : BNode → Except Err (BNode × List String)
  | .mk k fields => do
      let r ← ensureFields fields
      pure (.mk k r.1, r.2)

def ensureFields : List BField → Except Err (List BField × List String)
  | [] => pure ([], [])
  | f :: rest => do
      let r ← ensureField f
      let rr ← ensureFields rest
      pure (r.1 :: rr.1, r.2 ++ rr.2)

/-- The loop body of `_ensure_lists` for a single field:
`value = getattr(FDP_obj, field_name)` (AttributeError on an unset
attribute), recursion into a nested model value, then the cardinality
coercion driven by the `'List' in str(field.annotation)` test.  Lists
are not recursed into (the source only recurses on
`isinstance(value, BaseModel)`). -/
def ensureField : BField → Except Err (BField × List String)
  | .mk name _ _ _ none =>
      .error (.attributeError ("object has no attribute " ++ name))
  | .mk name req isL ty (some v) => do
      let r ← ensureVal v
      let v1 := r.1
      if isL && !(isListB v1) && !(isNoneB v1) then
        pure (.mk name req isL ty (some (.vlist [v1])), r.2)
      else if !isL && isListB v1 then
        match v1 with
        | .vlist [x] =>
            pure (.mk name req isL ty (some x),
              r.2 ++ ["Please do not put list in field: " ++ name])
        | _ => .error (.typeError ("Found list where it is not supposed to be: " ++ name))
      else
        pure (.mk name req isL ty (some v1), r.2)

def ensureVal : BVal → Except Err (BVal × List String)
  | .vnode n => do
      let r ← ensureLists n
      pure (.vnode r.1, r.2)
  | v => pure (v, [])
end

/-- The in-place element loop of the `theme` list branch
(metadata_model.py lines 133-136): each element that is not already a
DatasetTheme member is replaced by its table lookup; the loop reads the
current list at each position.  The loop advances one position per
step, and `List.set` preserves the length, so running it with the list
length as fuel from position 0 visits exactly every position of the
Python `enumerate`. -/
def themeLoopGo (t : List (String × BVal)) (vs : List BVal) (pos fuel : Nat) :
    Except Err (List BVal) :=
  match fuel with
  | 0 => pure vs
  | fuel + 1 =>
      match vs.get? pos with
      | none => pure vs
      | some elem =>
          if isThemeB elem then themeLoopGo t vs (pos + 1) fuel
          else do
            let c ← toEnum elem (.table t)
            themeLoopGo t (vs.set pos c) (pos + 1) fuel

def themeLoop (t : List (String × BVal)) (vs : List BVal) :
    Except Err (List BVal) :=
  themeLoopGo t vs 0 vs.length

/-- The in-place element loop of the `language` list branch
(metadata_model.py lines 141-144): each element that is not already an
AnyHttpUrl is replaced by the language transformation of that
element. -/
def languageLoopGo (vs : List BVal) (pos fuel : Nat) : Except Err (List BVal) :=
  match fuel with
  | 0 => pure vs
  | fuel + 1 =>
      match vs.get? pos with
      | none => pure vs
      | some elem =>
          if isUrlB elem then languageLoopGo vs (pos + 1) fuel
          else do
            let c ← toEnum elem .language
            languageLoopGo (vs.set pos c) (pos + 1) fuel

def languageLoop (vs : List BVal) : Except Err (List BVal) :=
  languageLoopGo vs 0 vs.length

/-- The in-place element loop of the `legal_basis` list branch
(metadata_model.py lines 152-155).  The source passes `value` — the
whole list, as mutated so far — to `_to_enum` instead of the loop
element `basis`, so each non-url element is replaced by the namespace
URI built from the f-string rendering of the current list. -/
def legalBasisLoopGo (vs : List BVal) (pos fuel : Nat) : Except Err (List BVal) :=
  match fuel with
  | 0 => pure vs
  | fuel + 1 =>
      match vs.get? pos with
      | none => pure vs
      | some elem =>
          if isUrlB elem then legalBasisLoopGo vs (pos + 1) fuel
          else do
            let c ← toEnum (.vlist vs) .legalBasis
            legalBasisLoopGo (vs.set pos c) (pos + 1) fuel

def legalBasisLoop (vs : List BVal) : Except Err (List BVal) :=
  legalBasisLoopGo vs 0 vs.length

/-- The `match field_name` dispatch of `_string_to_enum`
(metadata_model.py lines 128-168), applied to the field value after the
recursion into nested models.  `k` is the run-time class of the node
being processed, consulted only by the miswritten guards that test
`FDP_obj` instead of `value`. -/
def vocabStep (m : Mappings) (k : BKind) (name : String) (v : BVal) :
    Except Err BVal :=
  match name with
  | "access_rights" =>
      if isAccessB v then pure v else toEnum v (.table m.access_rights)
  | "theme" =>
      match v with
      | .vlist vs => do pure (.vlist (← themeLoop m.themes vs))
      | _ =>
          if nodeIsDatasetTheme k then pure v
          else toEnum v (.table m.themes)
  | "language" =>
      match v with
      | .vlist vs => do pure (.vlist (← languageLoop vs))
      | _ =>
          if nodeIsAnyHttpUrl k then pure v
          else toEnum v .language
  | "license" =>
      if isUrlB v then pure v else toEnum v (.table m.licenses)
  | "legal_basis" =>
      match v with
      | .vlist vs => do pure (.vlist (← legalBasisLoop vs))
      | _ =>
          if isUrlB v then pure v else toEnum v .legalBasis
  | "status" =>
      if isStatusB v then pure v else toEnum v (.table m.statuses)
  | "spatial" => pure v
  | "frequency" =>
      if nodeIsAnyHttpUrl k then pure v
      else toEnum v (.table m.frequencies)
  | _ => pure v

mutual
/-- Embeds `MetadataRecord._string_to_enum` (metadata_model.py lines
114-168) on one node: every field is read in declaration order
(AttributeError on unset attributes), falsy values are skipped, nested
model values (and model elements of list values) are recursed into, and
then the field-name dispatch `vocabStep` runs on the (updated) value. -/
def stringToEnum (m : Mappings) : BNode → Except Err BNode
  | .mk k fields => do
      pure (.mk k (← stringToEnumFields m k fields))

def stringToEnumFields (m : Mappings) (k : BKind) :
    List BField → Except Err (List BField)
  | [] => pure []
  | .mk name _ _ _ none :: _ =>
      .error (.attributeError ("object has no attribute " ++ name))
  | .mk name req isL ty (some v) :: rest => do
      if truthyB v then
        let v1 ← match v with
          | .vnode n => do pure (BVal.vnode (← stringToEnum m n))
          | .vlist vs => do pure (BVal.vlist (← stringToEnumList m vs))
          | w => pure w
        let v2 ← vocabStep m k name v1
        pure (BField.mk name req isL ty (some v2) :: (← stringToEnumFields m k rest))
      else
        pure (BField.mk name req isL ty (some v) :: (← stringToEnumFields m k rest))

def stringToEnumList (m : Mappings) : List BVal → Except Err (List BVal)
  | [] => pure []
  | v :: rest => do
      let v1 ← match v with
        | .vnode n => do pure (BVal.vnode (← stringToEnum m n))
        | w => pure w
      pure (v1 :: (← stringToEnumList m rest))
end

/-- A value of the plain drop-null snapshot produced by `_drop_none`:
the nested mapping / sequence / scalar view of the tree that is handed
to strict validation.  It is a fresh structure, of a type distinct from
the record tree. -/
inductive SVal where
  | snone
  | sstr (s : String)
  | sint (n : Int)
  | surl (s : String)
  | saccess (s : String)
  | stheme (s : String)
  | sstatus (s : String)
  | slist (vs : List SVal)
  | sdict (entries : List (String × SVal))

mutual
/-- Embeds `MetadataRecord._drop_none` (metadata_model.py lines
312-331) on a value: a model node becomes a plain mapping of its kept
fields, a list keeps its non-None elements recursively, and any other
value is returned as is (in particular a kept None stays None in the
snapshot). -/
def dropNoneVal : BVal → Except Err SVal
  | .vnone => pure .snone
  | .vstr s => pure (.sstr s)
  | .vint n => pure (.sint n)
  | .vurl s => pure (.surl s)
  | .vaccess s => pure (.saccess s)
  | .vtheme s => pure (.stheme s)
  | .vstatus s => pure (.sstatus s)
  | .vlist vs => do pure (.slist (← dropNoneList vs))
  | .vnode n => do pure (.sdict (← dropNoneNode n))

def dropNoneList : List BVal → Except Err (List SVal)
  | [] => pure []
  | v :: rest =>
      if isNoneB v then dropNoneList rest
      else do pure ((← dropNoneVal v) :: (← dropNoneList rest))

/-- The BaseModel branch of `_drop_none`: iterate `model_fields`, read
each attribute (the `try`/bare `except` turns the AttributeError of an
unset attribute into the ValueError about null in a required field),
and keep the field when its value is not None or the field is
schema-mandatory. -/
def dropNoneNode : BNode → Except Err (List (String × SVal))
  | .mk _ fields => dropNoneFields fields

def dropNoneFields : List BField → Except Err (List (String × SVal))
  | [] => pure []
  | .mk _ _ _ _ none :: _ =>
      .error (.valueError "Likely put null or null equivalent value in required field")
  | .mk name req _ _ (some v) :: rest =>
      if !(isNoneB v) || req then do
        pure ((name, ← dropNoneVal v) :: (← dropNoneFields rest))
      else dropNoneFields rest
end

/-- Looks a field name up in a snapshot mapping. -/
def lookupS (name : String) (d : List (String × SVal)) : Option SVal :=
  List.lookup name d

/-- Modelled from the spec: whether a snapshot value is the empty
string or the empty sequence, which the spec says a mandatory field
must not hold ("a mandatory field explicitly set to null (or empty
string/sequence) ... causes validation to fail").  The pydantic schema
classes enforcing this are in the missing schema modules. -/
def isEmptyS : SVal → Bool
  | .sstr s => s == ""
  | .slist vs => vs.isEmpty
  | _ => false

/-- Modelled from the spec: the strict type check of one snapshot value
against a declared field type. -/
def checkTy : FTy → SVal → Bool
  | .tyStr, .sstr _ => true
  | .tyStr, _ => false
  | .tyInt, .sint _ => true
  | .tyInt, _ => false
  | .tyUrl, .surl _ => true
  | .tyUrl, .sstr _ => true
  | .tyUrl, _ => false
  | .tyAny, _ => true

/-- One field declaration of the schema: name, mandatory flag, list
shape flag, declared type — the data `model_fields` exposes. -/
abbrev FieldDecl := String × Bool × Bool × FTy

/-- Modelled from the spec: strict schema validation of one declared
field against the snapshot mapping (`model_validate(..., strict=True)`
in the source; the schema classes live in the missing
schema_definitions_hri / sempyro modules).  A mandatory field must be
present, non-null and non-empty with a value of its declared shape and
type; an optional field may be absent or null. -/
def checkField (d : List (String × SVal)) : FieldDecl → Bool
  | (name, req, isL, ty) =>
      match lookupS name d with
      | none => !req
      | some .snone => !req
      | some s =>
          (!req || !(isEmptyS s)) &&
          (if isL then
            match s with
            | .slist xs => xs.all (checkTy ty)
            | _ => false
          else checkTy ty s)

/-- The field declarations of a node, as its class schema. -/
def declsOf (n : BNode) : List FieldDecl :=
  n.fields.map (fun f => (f.name, f.required, f.isList, f.ty))

/-- Modelled from the spec: strict validation of a snapshot mapping
against a list of field declarations, surfacing the first violated
field by name. -/
def validateSchema (decls : List FieldDecl) (d : List (String × SVal)) :
    Except Err Unit :=
  match decls.find? (fun dc => !(checkField d dc)) with
  | none => pure ()
  | some dc => .error (.validationError ("Validation failed for field: " ++ dc.1))

/-- Embeds `MetadataRecord.validate` (metadata_model.py lines 31-35):
build the drop-null snapshot with `_drop_none`, then strictly validate
the snapshot against the schema of the node (the call
`type(self).model_validate(cleaned, strict=True)` is modelled from the
spec).  Success is the absence of a raised error. -/
def validateB (rec : BNode) : Except Err Unit := do
  let cleaned ← dropNoneNode rec
  validateSchema (declsOf rec) cleaned

/-- State-threaded reading of `validate`: the source binds
`cleaned = MetadataRecord._drop_none(self)` — a fresh nested mapping —
and calls the classmethod `model_validate` on it; it performs no
`setattr` on the tree, so the translation returns the record component
unchanged next to the outcome. -/
def validateS (rec : BNode) : Except Err Unit × BNode :=
  (validateB rec, rec)

end MetaB

namespace MetaA

/-- Run-time class of a record node for the filler/resolver model. -/
inductive AKind where
  | record
  | catalog
  | dataset
  | distribution
  | agent
  | kindContact
deriving DecidableEq, Repr

mutual
/-- A Python value for the filler/resolver model.  A list value is a
reference (`aref`) into the store of list objects, so that sharing a
list between the configuration tree and a record field, and mutating
versus reallocating it, are observable.  A dict value carries its
entries inline (no directive mutates a dict). -/
inductive AVal where
  | astr (s : String)
  | aint (n : Int)
  | anone
  | aref (r : Nat)
  | adict (entries : List (String × AVal))
  | anode (n : ANode)

/-- A record node: its class and its attribute mapping.  A name absent
from the list is an unset attribute (`getattr` raises
AttributeError). -/
inductive ANode where
  | mk (kind : AKind) (fields : List (String × AVal))
end

/-- The store of Python list objects: cell `r` holds the elements of
the list that `AVal.aref r` points to.  List objects are only ever
appended to the store by the code under study; no cell is mutated. -/
abbrev Store := List (List AVal)

def getCell (σ : Store) (r : Nat) : List AVal := σ.getD r []

def ANode.kind : ANode → AKind
  | .mk k _ => k

def ANode.fields : ANode → List (String × AVal)
  | .mk _ fs => fs

/-- `getattr(obj, name)`: `none` when the attribute is unset. -/
def getattrN (obj : ANode) (name : String) : Option AVal :=
  List.lookup name obj.fields

/-- `setattr` on the attribute list: replace the first binding of the
name, or append a new binding. -/
def setattrF (fields : List (String × AVal)) (name : String) (v : AVal) :
    List (String × AVal) :=
  match fields with
  | [] => [(name, v)]
  | (k0, v0) :: rest =>
      if k0 = name then (name, v) :: rest
      else (k0, v0) :: setattrF rest name v

/-- `setattr(obj, name, v)`. -/
def setattrN (obj : ANode) (name : String) (v : AVal) : ANode :=
  .mk obj.kind (setattrF obj.fields name v)

/-- Python truthiness for the filler/resolver model: an empty list
object (through its reference) is falsy, as are None, the empty
string, 0 and the empty dict. -/
def truthyA (σ : Store) : AVal → Bool
  | .astr s => !(s == "")
  | .aint n => !(n == 0)
  | .anone => false
  | .aref r => !(getCell σ r).isEmpty
  | .adict entries => !entries.isEmpty
  | .anode _ => true

/-- The typed empty child node that `_fill_fields` constructs with
`model_construct()` for each structural key (metadata_model.py lines
49-64).  Defaults declared by the missing schema classes are not
modelled: a constructed node starts with no attribute set, and the
claims set every attribute they read. -/
def constructChild : String → Option ANode
  | "catalog" => some (.mk .catalog [])
  | "dataset" => some (.mk .dataset [])
  | "distribution" => some (.mk .distribution [])
  | "creator" => some (.mk .agent [])
  | "publisher" => some (.mk .agent [])
  | "contact_point" => some (.mk .kindContact [])
  | _ => none

/-- Embeds `MetadataRecord._fill_fields` (metadata_model.py lines
41-72) over the entries of one configuration mapping: a list value is
set verbatim (the record field aliases the configuration-held list
object), a structural key constructs and recursively fills a typed
child, the reserved key `mapping` is skipped, and any other value is
set only when truthy.  A structural key whose value is not a mapping
raises the AttributeError re-raised by the `except` clause. -/
def fillFields (obj : ANode) (entries : List (String × AVal)) (σ : Store) :
    Except Err ANode :=
  match entries with
  | [] => pure obj
  | (k, v) :: rest =>
      match v with
      | .aref r => fillFields (setattrN obj k (.aref r)) rest σ
      | .adict sub =>
          match constructChild k with
          | some child => do
              let c ← fillFields child sub σ
              fillFields (setattrN obj k (.anode c)) rest σ
          | none =>
              if k = "mapping" then fillFields obj rest σ
              else if truthyA σ (.adict sub) then
                fillFields (setattrN obj k (.adict sub)) rest σ
              else fillFields obj rest σ
      | w =>
          match constructChild k with
          | some _ => .error (.attributeError
              "Likely in one of the fields creator, publisher, or contact_point, something else than a dictionary or list was given")
          | none =>
              if k = "mapping" then fillFields obj rest σ
              else if truthyA σ w then fillFields (setattrN obj k w) rest σ
              else fillFields obj rest σ

/-- Iterating `for internal_field in internal_fields` over a directive
value: a list reference yields the cell elements, a string yields its
characters, a dict yields its keys; other values are not iterable. -/
def iterNames (v : AVal) (σ : Store) : Except Err (List AVal) :=
  match v with
  | .aref r => pure (getCell σ r)
  | .astr s => pure (s.toList.map (fun c => .astr (String.singleton c)))
  | .adict entries => pure (entries.map (fun p => AVal.astr p.1))
  | _ => .error (.typeError "object is not iterable")

/-- The inner loop of the `mapping` case of `_populate_FDP`
(metadata_model.py lines 89-94) over the internal field names of one
directive entry whose external field is present with value `apiVal`:
for each name, when the api value is truthy, write it to that field —
reassigning `keyword` to the concatenation `FDP_obj.keyword +
api_data[api_field]` (a freshly allocated list object, the source
comment notes that `extend` would have mutated the configuration-held
list) when the target is `keyword` currently holding a list, and
writing the value verbatim otherwise. -/
def applyInternals (obj : ANode) (apiVal : AVal) (names : List AVal) (σ : Store) :
    Except Err (ANode × Store) :=
  match names with
  | [] => pure (obj, σ)
  | nm :: rest =>
      if truthyA σ apiVal then
        match nm with
        | .astr f =>
            if f = "keyword" then
              match getattrN obj "keyword" with
              | none => .error (.attributeError "object has no attribute keyword")
              | some (.aref r) =>
                  match apiVal with
                  | .aref r2 =>
                      applyInternals (setattrN obj "keyword" (.aref σ.length)) apiVal rest
                        (σ ++ [getCell σ r ++ getCell σ r2])
                  | _ => .error (.typeError "can only concatenate list to list")
              | some _ => applyInternals (setattrN obj f apiVal) apiVal rest σ
            else applyInternals (setattrN obj f apiVal) apiVal rest σ
        | _ => .error (.typeError "attribute name must be a string")
      else applyInternals obj apiVal rest σ

/-- The `mapping` case of `_populate_FDP` (metadata_model.py lines
85-94) over the directive entries: entries whose external field is
absent from the api payload are skipped entirely; present entries have
their internal-field sequence iterated by `applyInternals`. -/
def applyMapping (obj : ANode) (api : List (String × AVal))
    (ds : List (String × AVal)) (σ : Store) : Except Err (ANode × Store) :=
  match ds with
  | [] => pure (obj, σ)
  | (apiField, internalFields) :: rest =>
      match List.lookup apiField api with
      | none => applyMapping obj api rest σ
      | some apiVal => do
          let names ← iterNames internalFields σ
          let r ← applyInternals obj apiVal names σ
          applyMapping r.1 api rest r.2

/-- Embeds `MetadataRecord._populate_FDP` (metadata_model.py lines
74-94) over the entries of one configuration mapping: the structural
keys `catalog`, `dataset` and `distribution` recurse into the matching
child record node with the matching configuration sub-tree (and only
those three — the `match` of the source has no case for `creator`,
`publisher` or `contact_point`, and no default case, so every other key
is skipped), and the key `mapping` applies its directive entries when
its value is a dict.  Recursing into a child that is not a record node
is modelled as an error; in the source such a child would fail on the
first attribute access inside the recursive call, and the pipeline
always creates record nodes for these keys. -/
def populateEntries (obj : ANode) (api : List (String × AVal))
    (entries : List (String × AVal)) (σ : Store) : Except Err (ANode × Store) :=
  match entries with
  | [] => pure (obj, σ)
  | (k, v) :: rest =>
      match k with
      | "catalog" | "dataset" | "distribution" =>
          match getattrN obj k with
          | none => .error (.attributeError ("object has no attribute " ++ k))
          | some (.anode child) =>
              match v with
              | .adict sub => do
                  let r ← populateEntries child api sub σ
                  populateEntries (setattrN obj k (.anode r.1)) api rest r.2
              | _ => .error (.attributeError "items on a non-dict configuration value")
          | some _ => .error (.attributeError "recursion into a non-record child")
      | "mapping" =>
          match v with
          | .adict ds => do
              let r ← applyMapping obj api ds σ
              populateEntries r.1 api rest r.2
          | _ => populateEntries obj api rest σ
      | _ => populateEntries obj api rest σ

/-- Whether every directive entry of one `mapping` dict is absent from
the api payload or carries a falsy payload value. -/
def noDirectives (σ : Store) (api : List (String × AVal))
    (ds : List (String × AVal)) : Bool :=
  ds.all (fun p =>
    match List.lookup p.1 api with
    | none => true
    | some v => !truthyA σ v)

/-- Whether every mapping directive reachable from a configuration
tree (through the structural keys the resolver recurses on) is absent
from the api payload or falsy. -/
def noApiData (σ : Store) (api : List (String × AVal)) :
    List (String × AVal) → Bool
  | [] => true
  | (k, v) :: rest =>
      (match k, v with
       | "catalog", .adict sub => noApiData σ api sub
       | "dataset", .adict sub => noApiData σ api sub
       | "distribution", .adict sub => noApiData σ api sub
       | "mapping", .adict ds => noDirectives σ api ds
       | _, _ => true) && noApiData σ api rest

end MetaA


/-!
Claim theorems.  Each theorem is stated over the embedded definitions
above; witnesses instantiate the theorems with hypotheses at concrete
inputs.
-/

/-- C6: for every raw language value of length at least 3, the language
transformation returns the fixed authority URI templated with the first
3 characters uppercased; for every raw value of length less than 3 it
raises a ValueError (ValueKind). -/
theorem C6_language_transformation (s : String) :
    (3 ≤ s.length →
      MetaB.languageTransformation (.vstr s) =
        .ok (.vstr ("http://publications.europa.eu/resource/authority/language/"
          ++ MetaB.pyUpper (s.take 3)))) ∧
    (s.length < 3 →
      MetaB.languageTransformation (.vstr s) =
        .error (.valueError "Provide at least 3 characters for language")) := by
  constructor
  · intro h
    simp [MetaB.languageTransformation, MetaB.languageStrTransformation, h]
  · intro h
    have h3 : ¬ 3 ≤ s.length := by omega
    simp [MetaB.languageTransformation, MetaB.languageStrTransformation, h3]

/-- Witness for C6 at the concrete inputs of the spec: "english"
normalizes to the ENG authority URI and "en" raises ValueError. -/
theorem C6_language_transformation_witness :
    (3 ≤ "english".length ∧
      MetaB.languageTransformation (.vstr "english") =
        .ok (.vstr "http://publications.europa.eu/resource/authority/language/ENG")) ∧
    ("en".length < 3 ∧
      MetaB.languageTransformation (.vstr "en") =
        .error (.valueError "Provide at least 3 characters for language")) := by
  refine ⟨⟨by decide, ?_⟩, ⟨by decide, (C6_language_transformation "en").2 (by decide)⟩⟩
  have h := (C6_language_transformation "english").1 (by decide)
  rw [h]
  rfl

/-- C5: for every lookup table and raw string, `_to_enum` returns
exactly the canonical value found by looking up the lowercased raw
string in the table, and when the lowercased raw string is not a key it
raises a ValueError whose message lists all supported keys of that
table. -/
theorem C5_table_lookup (t : List (String × MetaB.BVal)) (raw : String) :
    (∀ c, List.lookup (MetaB.pyLowerStr raw) t = some c →
      MetaB.toEnum (.vstr raw) (.table t) = .ok c) ∧
    (List.lookup (MetaB.pyLowerStr raw) t = none →
      MetaB.toEnum (.vstr raw) (.table t) =
        .error (.valueError (raw ++ " incorrect or not supported. Supported values: "
          ++ String.intercalate ", " (t.map Prod.fst)))) := by
  constructor
  · intro c h
    simp [MetaB.toEnum, MetaB.pyLower, h]
  · intro h
    simp [MetaB.toEnum, MetaB.pyLower, MetaB.pyStr, h]

/-- Witness for C5 on a concrete one-entry table: a known label (in
uppercase raw form) round-trips to its canonical value, an unknown
label raises the ValueError listing the supported keys. -/
theorem C5_table_lookup_witness :
    MetaB.toEnum (.vstr "HEAL") (.table [("heal", .vtheme "healugit")]) =
      .ok (.vtheme "healugit") ∧
    MetaB.toEnum (.vstr "bogus") (.table [("heal", .vtheme "healugit")]) =
      .error (.valueError "bogus incorrect or not supported. Supported values: heal") := by
  constructor
  · exact (C5_table_lookup [("heal", .vtheme "healugit")] "HEAL").1 _ (by rfl)
  · have h := (C5_table_lookup [("heal", .vtheme "healugit")] "bogus").2 (by rfl)
    rw [h]
    rfl

/-- C10: `validate` builds a fresh drop-null snapshot of the record
tree and validates the snapshot; it performs no write to the tree, so
whether validation succeeds or raises, the tree after the call equals
the tree before it. -/
theorem C10_validate_preserves_tree (rec : MetaB.BNode) :
    MetaB.validateS rec = (MetaB.validateB rec, rec) ∧
    (MetaB.validateS rec).2 = rec :=
  ⟨rfl, rfl⟩

/-- C1: the vocabulary pass is not idempotent, contrary to the claim.
On a catalog whose scalar language field holds the raw string "eng",
the first run of `_string_to_enum` canonicalizes the field to the
authority URI ending in ENG; the second run — which the claim says must
leave every field unchanged — rewrites it to the URI ending in HTT,
because the already-canonical guard tests FDP_obj instead of the value
and the first run produced a plain string. -/
theorem C1_vocabulary_pass_not_idempotent (m : MetaB.Mappings) :
    MetaB.stringToEnum m
        (.mk .catalog [.mk "language" false false .tyStr (some (.vstr "eng"))]) =
      .ok (.mk .catalog [.mk "language" false false .tyStr
        (some (.vstr "http://publications.europa.eu/resource/authority/language/ENG"))]) ∧
    MetaB.stringToEnum m
        (.mk .catalog [.mk "language" false false .tyStr
          (some (.vstr "http://publications.europa.eu/resource/authority/language/ENG"))]) =
      .ok (.mk .catalog [.mk "language" false false .tyStr
        (some (.vstr "http://publications.europa.eu/resource/authority/language/HTT"))]) ∧
    ("http://publications.europa.eu/resource/authority/language/HTT" : String) ≠
      "http://publications.europa.eu/resource/authority/language/ENG" :=
  ⟨rfl, rfl, by decide⟩

/-- C7: evaluation of the vocabulary pass at the failing input for the
legal_basis sequence branch.  The claim (and the spec) say each raw
element is replaced by the namespace URI of that element's raw value;
the source passes the whole list `value` instead of the loop element
`basis` to `_to_enum`, so the element becomes the namespace URI of the
f-string rendering of the list. -/
theorem C7_legal_basis_list_bug (m : MetaB.Mappings) :
    MetaB.stringToEnum m (.mk .dataset [.mk "legal_basis" false true .tyAny
        (some (.vlist [.vstr "InformedConsent"]))]) =
      .ok (.mk .dataset [.mk "legal_basis" false true .tyAny
        (some (.vlist [.vstr ("https://w3id.org/dpv#["
          ++ MetaB.pyReprStr "InformedConsent" ++ "]")]))]) ∧
    ("https://w3id.org/dpv#[" ++ MetaB.pyReprStr "InformedConsent" ++ "]") ≠
      "https://w3id.org/dpv#InformedConsent" :=
  ⟨rfl, by decide⟩

/-- C3: keyword accumulation without aliasing mutation.  Filling a
dataset from a configuration holding keyword [a, b] makes the record
field alias the configuration-held list object (cell 0); resolving a
directive that maps a truthy sequence api value [c, d] onto keyword
reassigns the field to a freshly allocated cell holding the
concatenation [a, b, c, d], and the configuration-held cell still holds
exactly [a, b]. -/
theorem C3_keyword_accumulation (a b c d : String) :
    MetaA.fillFields (.mk .dataset [])
      [("keyword", .aref 0), ("mapping", .adict [("challenge_keywords", .aref 2)])]
      [[.astr a, .astr b], [.astr c, .astr d], [.astr "keyword"]] =
      .ok (.mk .dataset [("keyword", .aref 0)]) ∧
    MetaA.populateEntries (.mk .dataset [("keyword", .aref 0)])
      [("challenge_keywords", .aref 1)]
      [("keyword", .aref 0), ("mapping", .adict [("challenge_keywords", .aref 2)])]
      [[.astr a, .astr b], [.astr c, .astr d], [.astr "keyword"]] =
      .ok (.mk .dataset [("keyword", .aref 3)],
        [[.astr a, .astr b], [.astr c, .astr d], [.astr "keyword"],
         [.astr a, .astr b, .astr c, .astr d]]) ∧
    MetaA.getCell [[.astr a, .astr b], [.astr c, .astr d], [.astr "keyword"],
        [.astr a, .astr b, .astr c, .astr d]] 0 = [.astr a, .astr b] ∧
    MetaA.getCell [[.astr a, .astr b], [.astr c, .astr d], [.astr "keyword"],
        [.astr a, .astr b, .astr c, .astr d]] 3 =
      [.astr a, .astr b, .astr c, .astr d] :=
  ⟨rfl, rfl, rfl, rfl⟩

/-- Counterexample for C9: a mapping directive nested under the
structural key creator is not resolved.  The api payload holds a truthy
value for the directive's external field, yet the resolver leaves the
record tree and the store untouched, because the match in
`_populate_FDP` has no case for creator (nor publisher nor
contact_point): had the directive been located and resolved against the
child node as the claim states, the child's name field would hold
"new". -/
theorem C9_creator_directive_ignored :
    MetaA.populateEntries
      (.mk .catalog [("creator", .anode (.mk .agent [("name", .astr "old")]))])
      [("ext", .astr "new")]
      [("creator", .adict [("mapping", .adict [("ext", .aref 0)])])]
      [[.astr "name"]] =
      .ok (.mk .catalog [("creator", .anode (.mk .agent [("name", .astr "old")]))],
        [[.astr "name"]]) ∧
    ("old" : String) ≠ "new" :=
  ⟨rfl, by decide⟩

/-- C9 (amended): the Mapping Resolver recurses into the matching child
record node with the matching configuration sub-tree for the structural
keys catalog, dataset and distribution only; every other key — in
particular creator, publisher and contact_point — is skipped, so
mapping directives nested under those keys are not resolved. -/
theorem C9_resolver_recursion (k : String) (obj child : MetaA.ANode)
    (api sub rest : List (String × MetaA.AVal)) (σ : MetaA.Store) :
    ((k = "catalog" ∨ k = "dataset" ∨ k = "distribution") →
      MetaA.getattrN obj k = some (.anode child) →
      MetaA.populateEntries obj api ((k, .adict sub) :: rest) σ =
        (do
          let r ← MetaA.populateEntries child api sub σ
          MetaA.populateEntries (MetaA.setattrN obj k (.anode r.1)) api rest r.2)) ∧
    ((k = "creator" ∨ k = "publisher" ∨ k = "contact_point") →
      ∀ v, MetaA.populateEntries obj api ((k, v) :: rest) σ =
        MetaA.populateEntries obj api rest σ) := by
  constructor
  · rintro (rfl | rfl | rfl) hget <;>
      simp [MetaA.populateEntries, hget]
  · rintro (rfl | rfl | rfl) v <;>
      simp [MetaA.populateEntries]

/-- Witness for C9 (amended): a directive nested under dataset is
resolved against the dataset child (its title field receives the api
value), while the same directive nested under creator is ignored. -/
theorem C9_resolver_recursion_witness :
    MetaA.populateEntries (.mk .catalog [("dataset", .anode (.mk .dataset []))])
      [("ext", .astr "new")]
      [("dataset", .adict [("mapping", .adict [("ext", .aref 0)])])]
      [[.astr "title"]] =
      .ok (.mk .catalog [("dataset", .anode (.mk .dataset [("title", .astr "new")]))],
        [[.astr "title"]]) ∧
    MetaA.populateEntries (.mk .catalog [("creator", .anode (.mk .agent []))])
      [("ext", .astr "new")]
      [("creator", .adict [("mapping", .adict [("ext", .aref 0)])])]
      [[.astr "title"]] =
      .ok (.mk .catalog [("creator", .anode (.mk .agent []))], [[.astr "title"]]) := by
  constructor
  · have h := (C9_resolver_recursion "dataset"
      (.mk .catalog [("dataset", .anode (.mk .dataset []))]) (.mk .dataset [])
      [("ext", .astr "new")] [("mapping", .adict [("ext", .aref 0)])] []
      [[.astr "title"]]).1 (Or.inr (Or.inl rfl)) rfl
    rw [h]
    rfl
  · have h := (C9_resolver_recursion "creator"
      (.mk .catalog [("creator", .anode (.mk .agent []))]) (.mk .agent [])
      [("ext", .astr "new")] [] [] [[.astr "title"]]).2 (Or.inl rfl)
      (.adict [("mapping", .adict [("ext", .aref 0)])])
    rw [h]
    rfl

/-- C4: the per-field behavior of the cardinality pass.  For a field
whose schema declares a sequence shape, a non-sequence non-null value
(after the recursion into a nested model value) is wrapped into a
single-element sequence; for a scalar-declared field, a single-element
sequence is unwrapped to its element with a non-fatal warning naming
the field, and a sequence of two or more elements raises the
ShapeKind TypeError naming the field.  The last conjunct ties the
per-field function to the pass on a node. -/
theorem C4_cardinality_pass (name : String) (req : Bool) (ty : MetaB.FTy) :
    (∀ v v1 ws, MetaB.ensureVal v = .ok (v1, ws) →
      MetaB.isListB v1 = false → MetaB.isNoneB v1 = false →
      MetaB.ensureField (.mk name req true ty (some v)) =
        .ok (.mk name req true ty (some (.vlist [v1])), ws)) ∧
    (∀ x, MetaB.ensureField (.mk name req false ty (some (.vlist [x]))) =
      .ok (.mk name req false ty (some x),
        ["Please do not put list in field: " ++ name])) ∧
    (∀ x y rest, MetaB.ensureField (.mk name req false ty (some (.vlist (x :: y :: rest)))) =
      .error (.typeError ("Found list where it is not supposed to be: " ++ name))) ∧
    (∀ k f, MetaB.ensureLists (.mk k [f]) =
      (MetaB.ensureField f).map (fun r => (.mk k [r.1], r.2))) := by
  refine ⟨?_, ?_, ?_, ?_⟩
  · intro v v1 ws h hl hn
    simp [MetaB.ensureField, h, hl, hn, bind, Except.bind, pure, Except.pure]
  · intro x
    simp [MetaB.ensureField, MetaB.ensureVal, MetaB.isListB, bind, Except.bind, pure, Except.pure]
  · intro x y rest
    simp [MetaB.ensureField, MetaB.ensureVal, MetaB.isListB, bind, Except.bind, pure, Except.pure]
  · intro k f
    cases h : MetaB.ensureField f <;>
      simp [MetaB.ensureLists, MetaB.ensureFields, h, Except.map, bind, Except.bind, pure, Except.pure]

/-- Witness for C4 at concrete inputs: wrap of a bare scalar into a
sequence-declared field, unwrap of a one-element sequence from a
scalar-declared field with the warning, and the ShapeKind error on a
two-element sequence in a scalar-declared field. -/
theorem C4_cardinality_pass_witness :
    MetaB.ensureField (.mk "purpose" false true .tyStr (some (.vstr "p"))) =
      .ok (.mk "purpose" false true .tyStr (some (.vlist [.vstr "p"])), []) ∧
    MetaB.ensureField (.mk "identifier" true false .tyStr (some (.vlist [.vstr "idee"]))) =
      .ok (.mk "identifier" true false .tyStr (some (.vstr "idee")),
        ["Please do not put list in field: identifier"]) ∧
    MetaB.ensureField (.mk "identifier" true false .tyStr
        (some (.vlist [.vstr "idee2", .vstr "illegal_id"]))) =
      .error (.typeError "Found list where it is not supposed to be: identifier") := by
  refine ⟨?_, ?_, ?_⟩
  · exact (C4_cardinality_pass "purpose" false .tyStr).1 (.vstr "p") (.vstr "p") [] rfl rfl rfl
  · exact (C4_cardinality_pass "identifier" true .tyStr).2.1 (.vstr "idee")
  · exact (C4_cardinality_pass "identifier" true .tyStr).2.2.1 (.vstr "idee2") (.vstr "illegal_id") []

namespace MetaB

theorem dropNoneFields_cons_some (nm : String) (rq il : Bool) (ty : FTy) (v : BVal)
    (rest : List BField) (d : List (String × SVal))
    (h : dropNoneFields (.mk nm rq il ty (some v) :: rest) = .ok d) :
    ((!(isNoneB v) || rq) = true ∧
      ∃ s d2, dropNoneVal v = .ok s ∧ dropNoneFields rest = .ok d2 ∧ d = (nm, s) :: d2) ∨
    ((!(isNoneB v) || rq) = false ∧ dropNoneFields rest = .ok d) := by
  by_cases hc : (!(isNoneB v) || rq) = true
  · left
    refine ⟨hc, ?_⟩
    rw [dropNoneFields, if_pos hc] at h
    cases hv : dropNoneVal v with
    | error e => rw [hv] at h; simp [bind, Except.bind] at h
    | ok s =>
        rw [hv] at h
        cases hr : dropNoneFields rest with
        | error e => rw [hr] at h; simp [bind, Except.bind] at h
        | ok d2 =>
            rw [hr] at h
            simp [bind, Except.bind, pure, Except.pure] at h
            exact ⟨s, d2, rfl, rfl, h.symm⟩
  · right
    rw [dropNoneFields, if_neg hc] at h
    exact ⟨by simpa using hc, h⟩

theorem lookupS_dropNoneFields_not_mem (fs : List BField) (d : List (String × SVal))
    (name : String) (h : dropNoneFields fs = .ok d)
    (hn : ∀ f ∈ fs, BField.name f ≠ name) : lookupS name d = none := by
  induction fs generalizing d with
  | nil =>
      simp [dropNoneFields, pure, Except.pure] at h
      subst h
      rfl
  | cons f rest ih =>
      cases f with
      | mk nm rq il ty val =>
          cases val with
          | none => simp [dropNoneFields] at h
          | some v =>
              have hnm : nm ≠ name := hn _ (List.mem_cons_self _ _)
              have hrest : ∀ f ∈ rest, BField.name f ≠ name :=
                fun f hf => hn f (List.mem_cons_of_mem _ hf)
              rcases dropNoneFields_cons_some nm rq il ty v rest d h with
                ⟨_, s, d2, _, hr, rfl⟩ | ⟨_, hr⟩
              · have hne : (name == nm) = false := beq_eq_false_iff_ne.mpr (Ne.symm hnm)
                simp only [lookupS, List.lookup, hne]
                exact ih d2 hr hrest
              · exact ih d hr hrest

theorem lookupS_dropNoneFields_kept (fs : List BField) (d : List (String × SVal))
    (name : String) (req isL : Bool) (ty : FTy) (v : BVal)
    (hc : (!(isNoneB v) || req) = true)
    (h : dropNoneFields fs = .ok d)
    (hmem : BField.mk name req isL ty (some v) ∈ fs)
    (hnodup : (fs.map BField.name).Nodup) :
    ∃ s, dropNoneVal v = .ok s ∧ lookupS name d = some s := by
  induction fs generalizing d with
  | nil => cases hmem
  | cons f rest ih =>
      cases f with
      | mk nm rq il t2 val =>
          rw [List.map_cons, List.nodup_cons] at hnodup
          obtain ⟨hhead, htail⟩ := hnodup
          have hhead2 : nm ∉ rest.map BField.name := hhead
          rcases List.mem_cons.mp hmem with heq | hmem2
          · injection heq with e1 e2 e3 e4 e5
            subst e1; subst e2; subst e3; subst e4; subst e5
            rcases dropNoneFields_cons_some name req isL ty v rest d h with
              ⟨_, s, d2, hv, hr, rfl⟩ | ⟨hcf, _⟩
            · exact ⟨s, hv, by simp [lookupS, List.lookup]⟩
            · rw [hc] at hcf; cases hcf
          · cases val with
            | none => simp [dropNoneFields] at h
            | some w =>
                have hne : nm ≠ name := by
                  intro e; subst e
                  have : nm ∈ rest.map BField.name :=
                    List.mem_map_of_mem BField.name hmem2
                  exact hhead2 this
                rcases dropNoneFields_cons_some nm rq il t2 w rest d h with
                  ⟨_, s, d2, hv, hr, rfl⟩ | ⟨_, hr⟩
                · have hne2 : (name == nm) = false :=
                    beq_eq_false_iff_ne.mpr (fun e => hne e.symm)
                  obtain ⟨s2, hv2, hl2⟩ := ih d2 hr hmem2 htail
                  refine ⟨s2, hv2, ?_⟩
                  simp only [lookupS, List.lookup, hne2]
                  exact hl2
                · exact ih d hr hmem2 htail

theorem lookupS_dropNoneFields_dropped (fs : List BField) (d : List (String × SVal))
    (name : String) (req isL : Bool) (ty : FTy) (v : BVal)
    (hc : (!(isNoneB v) || req) = false)
    (h : dropNoneFields fs = .ok d)
    (hmem : BField.mk name req isL ty (some v) ∈ fs)
    (hnodup : (fs.map BField.name).Nodup) :
    lookupS name d = none := by
  induction fs generalizing d with
  | nil => cases hmem
  | cons f rest ih =>
      cases f with
      | mk nm rq il t2 val =>
          rw [List.map_cons, List.nodup_cons] at hnodup
          obtain ⟨hhead, htail⟩ := hnodup
          have hhead2 : nm ∉ rest.map BField.name := hhead
          rcases List.mem_cons.mp hmem with heq | hmem2
          · injection heq with e1 e2 e3 e4 e5
            subst e1; subst e2; subst e3; subst e4; subst e5
            rcases dropNoneFields_cons_some name req isL ty v rest d h with
              ⟨hcf, _, _, _, _, _⟩ | ⟨_, hr⟩
            · rw [hc] at hcf; cases hcf
            · refine lookupS_dropNoneFields_not_mem rest d name hr ?_
              intro f hf e
              exact hhead2 (e ▸ List.mem_map_of_mem BField.name hf)
          · cases val with
            | none => simp [dropNoneFields] at h
            | some w =>
                have hne : nm ≠ name := by
                  intro e; subst e
                  have : nm ∈ rest.map BField.name :=
                    List.mem_map_of_mem BField.name hmem2
                  exact hhead2 this
                rcases dropNoneFields_cons_some nm rq il t2 w rest d h with
                  ⟨_, s, d2, hv, hr, rfl⟩ | ⟨_, hr⟩
                · have hne2 : (name == nm) = false :=
                    beq_eq_false_iff_ne.mpr (fun e => hne e.symm)
                  simp only [lookupS, List.lookup, hne2]
                  exact ih d2 hr hmem2 htail
                · exact ih d hr hmem2 htail

theorem dropNoneFields_drop_middle (pre post : List BField) (name : String)
    (isL : Bool) (ty : FTy) :
    dropNoneFields (pre ++ BField.mk name false isL ty (some .vnone) :: post) =
      dropNoneFields (pre ++ post) := by
  induction pre with
  | nil => simp [dropNoneFields, isNoneB]
  | cons g pre ih =>
      cases g with
      | mk nm rq il t2 val =>
          cases val with
          | none => simp [dropNoneFields]
          | some w =>
              simp only [List.cons_append, dropNoneFields, List.append_eq]
              rw [ih]

theorem find?_skip_middle {α : Type} (p : α → Bool) (xs ys : List α) (a : α)
    (ha : p a = false) : List.find? p (xs ++ a :: ys) = List.find? p (xs ++ ys) := by
  induction xs with
  | nil => simp [List.find?_cons, ha]
  | cons x xs ih => simp [List.find?_cons, ih]

end MetaB

/-- C2: the drop-null snapshot retains a field exactly when its value
is non-null or the field is schema-mandatory (first conjunct, for any
node whose snapshot succeeds); a schema-mandatory field explicitly set
to null survives the snapshot as null and makes validate raise a
validation error (second conjunct); an optional field set to null is
removed from the snapshot and validate behaves exactly as on the record
without that field, so validation succeeds whenever the rest is valid
(third conjunct); and a schema-mandatory field explicitly set to the
empty string or the empty sequence — being non-null — also survives
the drop-null snapshot and makes validate raise a validation error
(fourth conjunct). -/
theorem C2_drop_none_mandatory_vs_optional :
    (∀ (fs : List MetaB.BField) (d : List (String × MetaB.SVal))
        (name : String) (req isL : Bool) (ty : MetaB.FTy) (v : MetaB.BVal),
      MetaB.dropNoneFields fs = .ok d →
      MetaB.BField.mk name req isL ty (some v) ∈ fs →
      (fs.map MetaB.BField.name).Nodup →
      (MetaB.lookupS name d).isSome = (!(MetaB.isNoneB v) || req)) ∧
    (∀ (k : MetaB.BKind) (fs : List MetaB.BField) (d : List (String × MetaB.SVal))
        (name : String) (isL : Bool) (ty : MetaB.FTy),
      MetaB.dropNoneFields fs = .ok d →
      MetaB.BField.mk name true isL ty (some .vnone) ∈ fs →
      (fs.map MetaB.BField.name).Nodup →
      ∃ msg, MetaB.validateB (.mk k fs) = .error (.validationError msg)) ∧
    (∀ (k : MetaB.BKind) (pre post : List MetaB.BField)
        (name : String) (isL : Bool) (ty : MetaB.FTy),
      ((pre ++ MetaB.BField.mk name false isL ty (some .vnone) :: post).map
        MetaB.BField.name).Nodup →
      MetaB.validateB (.mk k (pre ++ MetaB.BField.mk name false isL ty (some .vnone) :: post)) =
        MetaB.validateB (.mk k (pre ++ post))) ∧
    (∀ (k : MetaB.BKind) (fs : List MetaB.BField) (d : List (String × MetaB.SVal))
        (name : String) (isL : Bool) (ty : MetaB.FTy) (v : MetaB.BVal),
      MetaB.dropNoneFields fs = .ok d →
      MetaB.BField.mk name true isL ty (some v) ∈ fs →
      (fs.map MetaB.BField.name).Nodup →
      (v = .vstr "" ∨ v = .vlist []) →
      (∃ s, MetaB.lookupS name d = some s) ∧
      ∃ msg, MetaB.validateB (.mk k fs) = .error (.validationError msg)) := by
  refine ⟨?_, ?_, ?_, ?_⟩
  · intro fs d name req isL ty v h hmem hnodup
    by_cases hc : (!(MetaB.isNoneB v) || req) = true
    · obtain ⟨s, _, hl⟩ :=
        MetaB.lookupS_dropNoneFields_kept fs d name req isL ty v hc h hmem hnodup
      rw [hl, hc]; rfl
    · have hcf : (!(MetaB.isNoneB v) || req) = false := by simpa using hc
      have hl :=
        MetaB.lookupS_dropNoneFields_dropped fs d name req isL ty v hcf h hmem hnodup
      rw [hl, hcf]; rfl
  · intro k fs d name isL ty h hmem hnodup
    obtain ⟨s, hv, hl⟩ :=
      MetaB.lookupS_dropNoneFields_kept fs d name true isL ty .vnone (by decide) h hmem hnodup
    have hs : s = .snone := by
      have hvn : MetaB.dropNoneVal .vnone = Except.ok MetaB.SVal.snone := rfl
      rw [hvn] at hv
      injection hv with he
      exact he.symm
    subst hs
    have hdc : (name, true, isL, ty) ∈ MetaB.declsOf (.mk k fs) := by
      unfold MetaB.declsOf
      simp only [MetaB.BNode.fields]
      exact List.mem_map_of_mem _ hmem
    have hcf : MetaB.checkField d (name, true, isL, ty) = false := by
      simp [MetaB.checkField, hl]
    unfold MetaB.validateB MetaB.dropNoneNode
    rw [h]
    simp only [bind, Except.bind]
    unfold MetaB.validateSchema
    cases hf : List.find? (fun dc => !(MetaB.checkField d dc)) (MetaB.declsOf (.mk k fs)) with
    | none =>
        exfalso
        have := List.find?_eq_none.mp hf _ hdc
        simp [hcf] at this
    | some dc => exact ⟨_, rfl⟩
  · intro k pre post name isL ty hnodup
    unfold MetaB.validateB MetaB.dropNoneNode
    rw [MetaB.dropNoneFields_drop_middle]
    cases hd : MetaB.dropNoneFields (pre ++ post) with
    | error e => simp [bind, Except.bind]
    | ok d =>
        simp only [bind, Except.bind]
        have hnn : ∀ f ∈ pre ++ post, MetaB.BField.name f ≠ name := by
          rw [List.map_append, List.map_cons] at hnodup
          have hmid := List.nodup_middle.mp hnodup
          rw [List.nodup_cons] at hmid
          have hmid1 : name ∉ List.map MetaB.BField.name pre ++ List.map MetaB.BField.name post :=
            hmid.1
          intro f hf e
          apply hmid1
          rw [← List.map_append]
          exact e ▸ List.mem_map_of_mem MetaB.BField.name hf
        have hlook : MetaB.lookupS name d = none :=
          MetaB.lookupS_dropNoneFields_not_mem _ _ _ hd hnn
        have hpf : (fun dc => !(MetaB.checkField d dc)) (name, false, isL, ty) = false := by
          simp [MetaB.checkField, hlook]
        unfold MetaB.validateSchema MetaB.declsOf
        simp only [MetaB.BNode.fields, List.map_append, List.map_cons,
          MetaB.BField.name, MetaB.BField.required, MetaB.BField.isList, MetaB.BField.ty]
        rw [MetaB.find?_skip_middle (fun dc => !(MetaB.checkField d dc)) _ _ _ hpf]
  · intro k fs d name isL ty v h hmem hnodup hv
    have hcv : (!(MetaB.isNoneB v) || true) = true := by simp
    obtain ⟨s, hvs, hl⟩ :=
      MetaB.lookupS_dropNoneFields_kept fs d name true isL ty v hcv h hmem hnodup
    have hse : s = .sstr "" ∨ s = .slist [] := by
      rcases hv with rfl | rfl
      · left
        have hvn : MetaB.dropNoneVal (.vstr "") = Except.ok (MetaB.SVal.sstr "") := rfl
        rw [hvn] at hvs
        injection hvs with he
        exact he.symm
      · right
        have hvn : MetaB.dropNoneVal (.vlist []) = Except.ok (MetaB.SVal.slist []) := rfl
        rw [hvn] at hvs
        injection hvs with he
        exact he.symm
    refine ⟨⟨s, hl⟩, ?_⟩
    have hdc : (name, true, isL, ty) ∈ MetaB.declsOf (.mk k fs) := by
      unfold MetaB.declsOf
      simp only [MetaB.BNode.fields]
      exact List.mem_map_of_mem _ hmem
    have hcf : MetaB.checkField d (name, true, isL, ty) = false := by
      rcases hse with rfl | rfl
      · simp [MetaB.checkField, hl, MetaB.isEmptyS]
      · simp [MetaB.checkField, hl, MetaB.isEmptyS]
    unfold MetaB.validateB MetaB.dropNoneNode
    rw [h]
    simp only [bind, Except.bind]
    unfold MetaB.validateSchema
    cases hf : List.find? (fun dc => !(MetaB.checkField d dc)) (MetaB.declsOf (.mk k fs)) with
    | none =>
        exfalso
        have := List.find?_eq_none.mp hf _ hdc
        simp [hcf] at this
    | some dc => exact ⟨_, rfl⟩

/-- Witness for C2: on a record with mandatory title "T" and optional
license null, the license field is dropped from the snapshot; a record
whose mandatory fn field is null fails validation; the record with the
null license validates exactly like the record without it — that is,
successfully; and a mandatory fn field set to the empty string, as well
as a mandatory identifier field set to the empty sequence, survive the
snapshot and fail validation. -/
theorem C2_drop_none_witness :
    (MetaB.lookupS "license" [("title", MetaB.SVal.sstr "T")]).isSome =
      (!(MetaB.isNoneB .vnone) || false) ∧
    (∃ msg, MetaB.validateB (.mk .kindContact
        [.mk "fn" true false .tyStr (some .vnone)]) = .error (.validationError msg)) ∧
    MetaB.validateB (.mk .catalog
        [.mk "title" true false .tyStr (some (.vstr "T")),
         .mk "license" false false .tyUrl (some .vnone)]) =
      MetaB.validateB (.mk .catalog [.mk "title" true false .tyStr (some (.vstr "T"))]) ∧
    MetaB.validateB (.mk .catalog
        [.mk "title" true false .tyStr (some (.vstr "T")),
         .mk "license" false false .tyUrl (some .vnone)]) = .ok () ∧
    ((∃ s, MetaB.lookupS "fn" [("fn", MetaB.SVal.sstr "")] = some s) ∧
      ∃ msg, MetaB.validateB (.mk .kindContact
        [.mk "fn" true false .tyStr (some (.vstr ""))]) = .error (.validationError msg)) ∧
    ((∃ s, MetaB.lookupS "identifier" [("identifier", MetaB.SVal.slist [])] = some s) ∧
      ∃ msg, MetaB.validateB (.mk .agent
        [.mk "identifier" true true .tyStr (some (.vlist []))]) =
          .error (.validationError msg)) := by
  refine ⟨?_, ?_, ?_, ?_, ?_, ?_⟩
  · exact C2_drop_none_mandatory_vs_optional.1
      [.mk "title" true false .tyStr (some (.vstr "T")),
       .mk "license" false false .tyUrl (some .vnone)]
      [("title", .sstr "T")] "license" false false .tyUrl .vnone rfl
      (List.Mem.tail _ (List.Mem.head _)) (by decide)
  · exact C2_drop_none_mandatory_vs_optional.2.1 .kindContact
      [.mk "fn" true false .tyStr (some .vnone)] [("fn", .snone)] "fn" false .tyStr rfl
      (List.Mem.head _) (by decide)
  · exact C2_drop_none_mandatory_vs_optional.2.2.1 .catalog
      [.mk "title" true false .tyStr (some (.vstr "T"))] [] "license" false .tyUrl (by decide)
  · rfl
  · exact C2_drop_none_mandatory_vs_optional.2.2.2 .kindContact
      [.mk "fn" true false .tyStr (some (.vstr ""))] [("fn", .sstr "")] "fn" false .tyStr
      (.vstr "") rfl (List.Mem.head _) (by decide) (Or.inl rfl)
  · exact C2_drop_none_mandatory_vs_optional.2.2.2 .agent
      [.mk "identifier" true true .tyStr (some (.vlist []))] [("identifier", .slist [])]
      "identifier" true .tyStr (.vlist []) rfl (List.Mem.head _) (by decide) (Or.inr rfl)
theorem applyInternals_falsy (obj : MetaA.ANode) (apiVal : MetaA.AVal)
    (names : List MetaA.AVal) (σ : MetaA.Store)
    (h : MetaA.truthyA σ apiVal = false) :
    MetaA.applyInternals obj apiVal names σ = .ok (obj, σ) := by
  induction names with
  | nil => rfl
  | cons nm rest ih => simp [MetaA.applyInternals, h, ih]

theorem setattrF_self (fields : List (String × MetaA.AVal)) (k : String) (v : MetaA.AVal)
    (h : List.lookup k fields = some v) : MetaA.setattrF fields k v = fields := by
  induction fields with
  | nil => simp [List.lookup] at h
  | cons p rest ih =>
      obtain ⟨k0, v0⟩ := p
      by_cases hk : k0 = k
      · subst hk
        simp only [List.lookup, beq_self_eq_true] at h
        injection h with hv
        simp [MetaA.setattrF, hv]
      · have hbeq : (k == k0) = false := beq_eq_false_iff_ne.mpr (fun e => hk e.symm)
        simp only [List.lookup, hbeq] at h
        simp [MetaA.setattrF, hk, ih h]

theorem setattrN_self (obj : MetaA.ANode) (k : String) (v : MetaA.AVal)
    (h : MetaA.getattrN obj k = some v) : MetaA.setattrN obj k v = obj := by
  cases obj with
  | mk kind fields =>
      have h2 : List.lookup k fields = some v := h
      simp [MetaA.setattrN, MetaA.ANode.kind, MetaA.ANode.fields, setattrF_self _ _ _ h2]

theorem applyMapping_noDirectives (ds : List (String × MetaA.AVal)) :
    ∀ (obj : MetaA.ANode) (api : List (String × MetaA.AVal)) (σ : MetaA.Store)
      (out : MetaA.ANode × MetaA.Store),
      MetaA.noDirectives σ api ds = true →
      MetaA.applyMapping obj api ds σ = .ok out → out = (obj, σ) := by
  induction ds with
  | nil =>
      intro obj api σ out _ hok
      simp only [MetaA.applyMapping] at hok
      exact (Except.ok.inj hok).symm
  | cons p rest ih =>
      intro obj api σ out hno hok
      obtain ⟨a, ifs⟩ := p
      simp only [MetaA.noDirectives, List.all_cons, Bool.and_eq_true] at hno
      simp only [MetaA.applyMapping] at hok
      cases hl : List.lookup a api with
      | none =>
          rw [hl] at hok
          exact ih obj api σ out hno.2 hok
      | some v =>
          rw [hl] at hok
          have hfalse : MetaA.truthyA σ v = false := by
            have h1 := hno.1
            rw [hl] at h1
            simpa using h1
          cases hi : MetaA.iterNames ifs σ with
          | error e => rw [hi] at hok; simp [bind, Except.bind] at hok
          | ok names =>
              rw [hi] at hok
              simp only [bind, Except.bind] at hok
              rw [applyInternals_falsy obj v names σ hfalse] at hok
              exact ih obj api σ out hno.2 hok

theorem populateEntries_noApiData (obj : MetaA.ANode) (api : List (String × MetaA.AVal))
    (entries : List (String × MetaA.AVal)) (σ : MetaA.Store) :
    ∀ out, MetaA.noApiData σ api entries = true →
      MetaA.populateEntries obj api entries σ = .ok out → out = (obj, σ) := by
  induction obj, api, entries, σ using MetaA.populateEntries.induct <;>
    intro out hno hok
  case case1 =>
    simp only [MetaA.populateEntries, pure, Except.pure, Except.ok.injEq] at hok
    exact hok.symm
  case case2 =>
    rename_i v0 rest hget
    simp only [MetaA.populateEntries] at hok
    rw [hget] at hok
    simp at hok
  case case6 =>
    rename_i v0 rest hget
    simp only [MetaA.populateEntries] at hok
    rw [hget] at hok
    simp at hok
  case case10 =>
    rename_i v0 rest hget
    simp only [MetaA.populateEntries] at hok
    rw [hget] at hok
    simp at hok
  case case3 =>
    rename_i obj api σ rest child sub hget ih2 ih1
    simp only [MetaA.noApiData, Bool.and_eq_true] at hno
    simp only [MetaA.populateEntries] at hok
    rw [hget] at hok
    dsimp only at hok
    cases hr : MetaA.populateEntries child api sub σ with
    | error e => rw [hr] at hok; simp [bind, Except.bind] at hok
    | ok r =>
        rw [hr] at hok
        simp only [bind, Except.bind] at hok
        have hr2 : r = (child, σ) := ih2 r hno.1 hr
        subst hr2
        have hout := ih1 (child, σ) out hno.2 hok
        rw [setattrN_self obj "catalog" (.anode child) hget] at hout
        exact hout
  case case7 =>
    rename_i obj api σ rest child sub hget ih2 ih1
    simp only [MetaA.noApiData, Bool.and_eq_true] at hno
    simp only [MetaA.populateEntries] at hok
    rw [hget] at hok
    dsimp only at hok
    cases hr : MetaA.populateEntries child api sub σ with
    | error e => rw [hr] at hok; simp [bind, Except.bind] at hok
    | ok r =>
        rw [hr] at hok
        simp only [bind, Except.bind] at hok
        have hr2 : r = (child, σ) := ih2 r hno.1 hr
        subst hr2
        have hout := ih1 (child, σ) out hno.2 hok
        rw [setattrN_self obj "dataset" (.anode child) hget] at hout
        exact hout
  case case11 =>
    rename_i obj api σ rest child sub hget ih2 ih1
    simp only [MetaA.noApiData, Bool.and_eq_true] at hno
    simp only [MetaA.populateEntries] at hok
    rw [hget] at hok
    dsimp only at hok
    cases hr : MetaA.populateEntries child api sub σ with
    | error e => rw [hr] at hok; simp [bind, Except.bind] at hok
    | ok r =>
        rw [hr] at hok
        simp only [bind, Except.bind] at hok
        have hr2 : r = (child, σ) := ih2 r hno.1 hr
        subst hr2
        have hout := ih1 (child, σ) out hno.2 hok
        rw [setattrN_self obj "distribution" (.anode child) hget] at hout
        exact hout
  case case4 =>
    rename_i v0 rest child hnadict hget
    simp only [MetaA.populateEntries] at hok
    rw [hget] at hok
    dsimp only at hok
    simp at hok
  case case8 =>
    rename_i v0 rest child hnadict hget
    simp only [MetaA.populateEntries] at hok
    rw [hget] at hok
    dsimp only at hok
    simp at hok
  case case12 =>
    rename_i v0 rest child hnadict hget
    simp only [MetaA.populateEntries] at hok
    rw [hget] at hok
    dsimp only at hok
    simp at hok
  case case5 =>
    rename_i v0 rest val hnanode hget
    simp only [MetaA.populateEntries] at hok
    rw [hget] at hok
    simp at hok
  case case9 =>
    rename_i v0 rest val hnanode hget
    simp only [MetaA.populateEntries] at hok
    rw [hget] at hok
    simp at hok
  case case13 =>
    rename_i v0 rest val hnanode hget
    simp only [MetaA.populateEntries] at hok
    rw [hget] at hok
    simp at hok
  case case14 =>
    rename_i obj api σ rest ds ih
    simp only [MetaA.noApiData, Bool.and_eq_true] at hno
    simp only [MetaA.populateEntries] at hok
    cases ha : MetaA.applyMapping obj api ds σ with
    | error e => rw [ha] at hok; simp [bind, Except.bind] at hok
    | ok r =>
        rw [ha] at hok
        simp only [bind, Except.bind] at hok
        have hr2 : r = (obj, σ) := applyMapping_noDirectives ds obj api σ r hno.1 ha
        subst hr2
        exact ih (obj, σ) out hno.2 hok
  case case15 =>
    rename_i v0 rest hnadict ih
    cases v0 with
    | adict ds => exact (hnadict ds rfl).elim
    | astr s =>
        rw [MetaA.noApiData.eq_def] at hno
        simp at hno
        exact ih out hno hok
    | aint n =>
        rw [MetaA.noApiData.eq_def] at hno
        simp at hno
        exact ih out hno hok
    | anone =>
        rw [MetaA.noApiData.eq_def] at hno
        simp at hno
        exact ih out hno hok
    | aref r =>
        rw [MetaA.noApiData.eq_def] at hno
        simp at hno
        exact ih out hno hok
    | anode n =>
        rw [MetaA.noApiData.eq_def] at hno
        simp at hno
        exact ih out hno hok
  case case16 =>
    rename_i k v0 rest hk1 hk2 hk3 hk4 ih
    rw [MetaA.populateEntries.eq_def] at hok
    dsimp only at hok
    split at hok
    · exact (hk1 rfl).elim
    · exact (hk2 rfl).elim
    · exact (hk3 rfl).elim
    · exact (hk4 rfl).elim
    · rw [MetaA.noApiData.eq_def] at hno
      dsimp only at hno
      split at hno
      · exact (hk1 rfl).elim
      · exact (hk2 rfl).elim
      · exact (hk3 rfl).elim
      · exact (hk4 rfl).elim
      · exact ih out hno hok
/-- C8: a mapping-directive entry whose external field name is absent
from the api payload is processed exactly as if it were not there
(first conjunct); an entry whose external field is present but whose
payload value is falsy is likewise processed without any write, given
that its internal-field value is iterable (second conjunct); and when
every directive reachable from the configuration tree is absent or
falsy, the whole resolution returns the record tree and the store
unchanged, preserving every configuration-supplied value (third
conjunct). -/
theorem C8_absent_or_falsy_no_write :
    (∀ (obj : MetaA.ANode) (api : List (String × MetaA.AVal)) (a : String)
        (ifs : MetaA.AVal) (rest : List (String × MetaA.AVal)) (σ : MetaA.Store),
      List.lookup a api = none →
      MetaA.applyMapping obj api ((a, ifs) :: rest) σ =
        MetaA.applyMapping obj api rest σ) ∧
    (∀ (obj : MetaA.ANode) (api : List (String × MetaA.AVal)) (a : String)
        (ifs : MetaA.AVal) (rest : List (String × MetaA.AVal)) (σ : MetaA.Store)
        (v : MetaA.AVal) (names : List MetaA.AVal),
      List.lookup a api = some v →
      MetaA.truthyA σ v = false →
      MetaA.iterNames ifs σ = .ok names →
      MetaA.applyMapping obj api ((a, ifs) :: rest) σ =
        MetaA.applyMapping obj api rest σ) ∧
    (∀ (obj : MetaA.ANode) (api : List (String × MetaA.AVal))
        (entries : List (String × MetaA.AVal)) (σ : MetaA.Store)
        (out : MetaA.ANode × MetaA.Store),
      MetaA.noApiData σ api entries = true →
      MetaA.populateEntries obj api entries σ = .ok out → out = (obj, σ)) := by
  refine ⟨?_, ?_, ?_⟩
  · intro obj api a ifs rest σ h
    simp only [MetaA.applyMapping]
    rw [h]
  · intro obj api a ifs rest σ v names h hf hi
    simp only [MetaA.applyMapping]
    rw [h, hi]
    simp only [bind, Except.bind]
    rw [applyInternals_falsy obj v names σ hf]
  · exact fun obj api entries σ out h hok =>
      populateEntries_noApiData obj api entries σ out h hok

/-- Witness for C8: with a payload holding only a falsy value for
"present", the entry for the absent external field and the entry for
the falsy one are both skipped, and the whole resolution of the
two-entry directive leaves the record and the store unchanged. -/
theorem C8_absent_or_falsy_no_write_witness :
    MetaA.applyMapping (.mk .dataset [("title", .astr "cfg")]) [("present", .astr "")]
      [("absent", .aref 0), ("present", .aref 0)] [[.astr "title"]] =
      MetaA.applyMapping (.mk .dataset [("title", .astr "cfg")]) [("present", .astr "")]
        [("present", .aref 0)] [[.astr "title"]] ∧
    MetaA.applyMapping (.mk .dataset [("title", .astr "cfg")]) [("present", .astr "")]
      [("present", .aref 0)] [[.astr "title"]] =
      MetaA.applyMapping (.mk .dataset [("title", .astr "cfg")]) [("present", .astr "")]
        [] [[.astr "title"]] ∧
    MetaA.populateEntries (.mk .dataset [("title", .astr "cfg")]) [("present", .astr "")]
      [("mapping", .adict [("absent", .aref 0), ("present", .aref 0)])] [[.astr "title"]] =
      .ok (.mk .dataset [("title", .astr "cfg")], [[.astr "title"]]) ∧
    ((.mk .dataset [("title", .astr "cfg")], [[.astr "title"]]) :
        MetaA.ANode × MetaA.Store) =
      (.mk .dataset [("title", .astr "cfg")], [[.astr "title"]]) := by
  refine ⟨?_, ?_, rfl, ?_⟩
  · exact C8_absent_or_falsy_no_write.1 (.mk .dataset [("title", .astr "cfg")])
      [("present", .astr "")] "absent" (.aref 0) [("present", .aref 0)]
      [[.astr "title"]] rfl
  · exact C8_absent_or_falsy_no_write.2.1 (.mk .dataset [("title", .astr "cfg")])
      [("present", .astr "")] "present" (.aref 0) [] [[.astr "title"]]
      (.astr "") [.astr "title"] rfl rfl rfl
  · exact C8_absent_or_falsy_no_write.2.2 (.mk .dataset [("title", .astr "cfg")])
      [("present", .astr "")]
      [("mapping", .adict [("absent", .aref 0), ("present", .aref 0)])]
      [[.astr "title"]]
      (.mk .dataset [("title", .astr "cfg")], [[.astr "title"]])
      (by simp [MetaA.noApiData, MetaA.noDirectives, MetaA.truthyA, List.lookup]) rfl
